import Mathlib

/-!
Shallow embedding of the subscription/broadcast engine of
`src/index.js` (class `YahooFinanceServer`).

Conventions of the embedding:
* JavaScript `Map`s (`this.clients`, `this.stockPrices`) become
  association lists with unique keys in insertion order; `Map.set`
  replaces the binding in place when the key exists, else appends, as in
  JS; `Map.delete` filters the key out.
* JavaScript `Set`s (`this.activeSymbols`, `client.subscribedSymbols`)
  become duplicate-free lists in insertion order; `Set.add` appends when
  absent, `Set.delete` filters.
* JS numbers are modelled as rationals; `Math.floor` is `Int.floor`.
* Each call to `Math.random()` is modelled as an explicit rational
  parameter (an oracle), with `0 ≤ r < 1` assumed where a theorem needs
  it; `Date.now()` is an explicit `ℕ` parameter.
* A client's WebSocket handle is modelled by its observable behaviour:
  `readyState` (open or not) inside the session, plus a `fails` oracle
  passed to the broadcast loop saying whether `ws.send` throws for a
  given client.
-/

abbrev StockSymbol := String

abbrev ClientId := String

/-- `String.prototype.includes`: substring containment on the character
list, `hasInfix sub l = true` iff `sub` occurs contiguously in `l`. -/
def hasInfix (sub : List Char) : List Char → Bool
  | [] => sub.isEmpty
  | a :: t => sub.isPrefixOf (a :: t) || hasInfix sub t

/-- `s.includes(sub)` on strings. -/
def includesStr (s sub : String) : Bool :=
  hasInfix sub.toList s.toList

/-- JS `Set.add`: append the element when absent (insertion order kept). -/
def setAdd (l : List String) (a : String) : List String :=
  if a ∈ l then l else l ++ [a]

/-- JS `Set.delete`: remove the element. -/
def setDelete (l : List String) (a : String) : List String :=
  l.filter (fun b => decide (b ≠ a))

/-- JS `Map.get`: first binding of the key. -/
def mapGet {β : Type} : List (String × β) → String → Option β
  | [], _ => none
  | p :: t, k => if p.1 = k then some p.2 else mapGet t k

/-- JS `Map.set`: replace the binding in place when the key exists, else
append. -/
def mapSet {β : Type} : List (String × β) → String → β → List (String × β)
  | [], k, v => [(k, v)]
  | p :: t, k, v => if p.1 = k then (k, v) :: t else p :: mapSet t k v

/-- JS `Map.delete`: remove the binding of the key. -/
def mapDelete {β : Type} (m : List (String × β)) (k : String) : List (String × β) :=
  m.filter (fun p => decide (p.1 ≠ k))

/-- The keys of an association list are duplicate-free (true of every JS
`Map` and maintained by all operations of the embedding). -/
def keysNodup {β : Type} (m : List (String × β)) : Prop :=
  (m.map Prod.fst).Nodup

instance {β : Type} (m : List (String × β)) : Decidable (keysNodup m) := by
  unfold keysNodup; infer_instance

/-- One price record per symbol, as stored in `this.stockPrices`
(`initializeStockPrice`, `updatePrices`). -/
structure PriceRecord where
  id : StockSymbol
  price : ℚ
  previousClose : ℚ
  change : ℚ
  changePercent : ℚ
  dayHigh : ℚ
  dayLow : ℚ
  dayVolume : ℤ
  time : ℕ
  currency : String
  exchange : String
deriving DecidableEq, Repr

/-- One client session, as stored in `this.clients` by the connection
handler (`ws`, `subscribedSymbols`, `lastPing`); the handle is modelled
by its `readyState` (`true` = `WebSocket.OPEN`). -/
structure Client where
  readyState : Bool
  subscribedSymbols : List StockSymbol
  lastPing : ℕ
deriving DecidableEq, Repr

/-- Messages the server sends to a client
(`connection` / `ticker` / `pong` / `error` envelopes). -/
inductive OutMsg where
  | connectionMsg (status : String) (clientId : ClientId) (timestamp : ℕ)
  | ticker (data : PriceRecord)
  | pong (timestamp : ℕ)
  | errorMsg (message : String)
deriving DecidableEq, Repr

/-- The mutable state of `YahooFinanceServer`: `this.clients`,
`this.activeSymbols`, `this.stockPrices`. -/
structure ServerState where
  clients : List (ClientId × Client)
  activeSymbols : List StockSymbol
  stockPrices : List (StockSymbol × PriceRecord)
deriving DecidableEq, Repr

/-- Server state at process start (empty maps and set). -/
def initialState : ServerState :=
  { clients := [], activeSymbols := [], stockPrices := [] }

/-- The `Math.random()` draws consumed by `initializeStockPrice`, in
source order: base-price fallback, initial change, dayHigh spread,
dayLow spread, volume baseline. -/
structure InitRands where
  rBase : ℚ
  rChange : ℚ
  rHigh : ℚ
  rLow : ℚ
  rVol : ℚ
deriving DecidableEq, Repr

/-- The `Math.random()` draws consumed per symbol by `updatePrices`:
price-movement draw and volume-increment draw. -/
structure UpdRands where
  rMove : ℚ
  rVol : ℚ
deriving DecidableEq, Repr

/-- A parsed client message: `data.type` plus `data.symbols`
(`none` models a missing field or one failing `Array.isArray`). -/
structure MsgData where
  type : String
  symbols : Option (List StockSymbol)
deriving DecidableEq, Repr

/-- The `basePrices` table of `initializeStockPrice`; all values are
nonzero, so JS `basePrices[symbol] || fallback` is `Option.getD`. -/
def basePrices : StockSymbol → Option ℚ
  | "AAPL" => some 150
  | "MSFT" => some 300
  | "GOOGL" => some 2500
  | "GOOG" => some 2500
  | "AMZN" => some 3000
  | "TSLA" => some 800
  | "NVDA" => some 400
  | "META" => some 250
  | "NFLX" => some 400
  | "BTC-USD" => some 35000
  | "ETH-USD" => some 2000
  | "JPM" => some 140
  | "JNJ" => some 160
  | "V" => some 220
  | "PG" => some 140
  | _ => none

/-- `initializeStockPrice(symbol)`: create the stored record. -/
def initializeStockPrice (symbol : StockSymbol) (ρ : InitRands) (now : ℕ) : PriceRecord :=
  let basePrice : ℚ := (basePrices symbol).getD (ρ.rBase * 200 + 50)
  let change : ℚ := (ρ.rChange - 1/2) * basePrice * (5/100)
  let price : ℚ := max (1/100) (basePrice + change)
  { id := symbol
    price := price
    previousClose := basePrice
    change := change
    changePercent := change / basePrice * 100
    dayHigh := price * (1 + ρ.rHigh * (3/100))
    dayLow := price * (1 - ρ.rLow * (3/100))
    dayVolume := Int.floor (ρ.rVol * 50000000 + 1000000)
    time := now
    currency := if includesStr symbol "USD" then "USD" else "USD"
    exchange := if includesStr symbol "USD" then "CRYPTO" else "NASDAQ" }

/-- The per-symbol volatility constant of `updatePrices`
(`symbol.includes('USD') ? 0.02 : 0.01`). -/
def volatility (symbol : StockSymbol) : ℚ :=
  if includesStr symbol "USD" then 2/100 else 1/100

/-- The per-step percentage delta of `updatePrices`:
`(Math.random() - 0.5) * volatility`. -/
def stepDelta (symbol : StockSymbol) (r : ℚ) : ℚ :=
  (r - 1/2) * volatility symbol

/-- The record update applied by `updatePrices` to an existing record. -/
def advanceRecord (symbol : StockSymbol) (currentData : PriceRecord) (u : UpdRands)
    (now : ℕ) : PriceRecord :=
  let changePercent := stepDelta symbol u.rMove
  let newPrice := max (1/100) (currentData.price * (1 + changePercent))
  let change := newPrice - currentData.previousClose
  { currentData with
    price := newPrice
    change := change
    changePercent := change / currentData.previousClose * 100
    dayHigh := max currentData.dayHigh newPrice
    dayLow := min currentData.dayLow newPrice
    dayVolume := currentData.dayVolume + Int.floor (u.rVol * 10000)
    time := now }

/-- A base-36 digit rendered as in JS `Number.prototype.toString(36)`. -/
def base36Char (n : ℕ) : Char :=
  if n < 10 then Char.ofNat (48 + n) else Char.ofNat (87 + n)

/-- The `i`-th base-36 fraction digit of `r`. -/
def base36FracDigit (r : ℚ) (i : ℕ) : ℕ :=
  (Int.floor (r * (36 : ℚ) ^ (i + 1))).toNat % 36

/-- `generateClientId`: `'client_' + Math.random().toString(36).substr(2, 9)`,
with the random draw explicit. `toString(36).substr(2, 9)` is modelled
as the first nine base-36 fraction digits of the draw (JS prints the
shortest representation, so draws with a shorter expansion yield fewer
characters; that truncation is not modelled). -/
def generateClientId (r : ℚ) : ClientId :=
  "client_" ++ String.mk ((List.range 9).map (fun i => base36Char (base36FracDigit r i)))

/-- The `wss.on('connection')` handler of `setupWebSocket`: generate an
id, register a session with an empty subscription set, send the
`connection` acknowledgement. Returns the new state, the id, and the
messages sent. -/
def onConnection (s : ServerState) (r : ℚ) (now : ℕ) :
    ServerState × ClientId × List (ClientId × OutMsg) :=
  let clientId := generateClientId r
  let newClient : Client :=
    { readyState := true, subscribedSymbols := [], lastPing := now }
  ({ s with clients := mapSet s.clients clientId newClient },
   clientId,
   [(clientId, OutMsg.connectionMsg "connected" clientId now)])

/-- `recalculateActiveSymbols`, as a function of the clients map. -/
def recalculateActiveSymbols (clients : List (ClientId × Client)) : List StockSymbol :=
  clients.foldl (fun acc p => p.2.subscribedSymbols.foldl setAdd acc) []

/-- `handleSubscribe(clientId, symbols)`. The two `forEach` loops are
modelled as folds; `symbols = none` models a missing or non-array
`symbols` field (the `!symbols || !Array.isArray(symbols)` guard).
Returns the new state and the snapshot messages sent. -/
def handleSubscribe (s : ServerState) (clientId : ClientId)
    (symbols : Option (List StockSymbol)) (ρ : StockSymbol → InitRands) (now : ℕ) :
    ServerState × List (ClientId × OutMsg) :=
  match mapGet s.clients clientId, symbols with
  | some client, some syms =>
      let newPrices := syms.foldl (fun ps sym =>
        match mapGet ps sym with
        | some _ => ps
        | none => mapSet ps sym (initializeStockPrice sym (ρ sym) now)) s.stockPrices
      let newClient := { client with
        subscribedSymbols := syms.foldl setAdd client.subscribedSymbols }
      let s2 : ServerState :=
        { clients := mapSet s.clients clientId newClient
          activeSymbols := syms.foldl setAdd s.activeSymbols
          stockPrices := newPrices }
      (s2, syms.filterMap (fun sym =>
        (mapGet newPrices sym).map (fun r1 => (clientId, OutMsg.ticker r1))))
  | _, _ => (s, [])

/-- `handleUnsubscribe(clientId, symbols)`. -/
def handleUnsubscribe (s : ServerState) (clientId : ClientId)
    (symbols : Option (List StockSymbol)) : ServerState :=
  match mapGet s.clients clientId, symbols with
  | some client, some syms =>
      let newClient := { client with
        subscribedSymbols := syms.foldl setDelete client.subscribedSymbols }
      let newClients := mapSet s.clients clientId newClient
      { s with clients := newClients
               activeSymbols := recalculateActiveSymbols newClients }
  | _, _ => s

/-- `handleClientDisconnect(clientId)`. -/
def handleClientDisconnect (s : ServerState) (clientId : ClientId) : ServerState :=
  let newClients := mapDelete s.clients clientId
  { s with clients := newClients
           activeSymbols := recalculateActiveSymbols newClients }

/-- `cleanupConnections`: drop sessions whose handle is not open, and
recalculate the active set only when at least one was removed. -/
def cleanupConnections (s : ServerState) : ServerState :=
  let newClients := s.clients.filter (fun p => p.2.readyState)
  if newClients.length = s.clients.length then { s with clients := newClients }
  else { s with clients := newClients
                activeSymbols := recalculateActiveSymbols newClients }

/-- One iteration of the `this.clients.forEach` loop of
`broadcastToClients`: a subscribed open client either receives the
ticker message or — when `ws.send` throws, modelled by `fails` — is
deleted from the clients map. -/
def broadcastStep (d : PriceRecord) (fails : ClientId → Bool)
    (acc : ServerState × List (ClientId × OutMsg)) (p : ClientId × Client) :
    ServerState × List (ClientId × OutMsg) :=
  if d.id ∈ p.2.subscribedSymbols then
    if p.2.readyState then
      if fails p.1 then
        ({ acc.1 with clients := mapDelete acc.1.clients p.1 }, acc.2)
      else (acc.1, acc.2 ++ [(p.1, OutMsg.ticker d)])
    else acc
  else acc

/-- `broadcastToClients(tickerData)`: fan the record out to every
subscribed open client, deleting clients whose send throws. Returns the
new state and the messages delivered. -/
def broadcastToClients (s : ServerState) (d : PriceRecord)
    (fails : ClientId → Bool) : ServerState × List (ClientId × OutMsg) :=
  s.clients.foldl (broadcastStep d fails) (s, [])

/-- The body of the `this.activeSymbols.forEach` loop of `updatePrices`:
a symbol with no record is initialized and skipped (`return`); otherwise
the record is advanced, stored, and broadcast. -/
def priceTickStep (fails : StockSymbol → ClientId → Bool) (ρ : StockSymbol → InitRands)
    (υ : StockSymbol → UpdRands) (now : ℕ)
    (acc : ServerState × List (ClientId × OutMsg)) (sym : StockSymbol) :
    ServerState × List (ClientId × OutMsg) :=
  match mapGet acc.1.stockPrices sym with
  | none =>
      let ps2 := mapSet acc.1.stockPrices sym (initializeStockPrice sym (ρ sym) now)
      ({ acc.1 with stockPrices := ps2 }, acc.2)
  | some currentData =>
      let updatedData := advanceRecord sym currentData (υ sym) now
      let st2 := { acc.1 with stockPrices := mapSet acc.1.stockPrices sym updatedData }
      let res := broadcastToClients st2 updatedData (fails sym)
      (res.1, acc.2 ++ res.2)

/-- `updatePrices`: one tick of the price simulation. -/
def updatePrices (s : ServerState) (fails : StockSymbol → ClientId → Bool)
    (ρ : StockSymbol → InitRands) (υ : StockSymbol → UpdRands) (now : ℕ) :
    ServerState × List (ClientId × OutMsg) :=
  if s.activeSymbols.length = 0 then (s, [])
  else s.activeSymbols.foldl (priceTickStep fails ρ υ now) (s, [])

/-- `handleClientMessage(clientId, data)`: the `switch` on `data.type`. -/
def handleClientMessage (s : ServerState) (clientId : ClientId) (data : MsgData)
    (ρ : StockSymbol → InitRands) (now : ℕ) : ServerState × List (ClientId × OutMsg) :=
  match mapGet s.clients clientId with
  | none => (s, [])
  | some _ =>
      if data.type = "subscribe" then handleSubscribe s clientId data.symbols ρ now
      else if data.type = "unsubscribe" then
        (handleUnsubscribe s clientId data.symbols, [])
      else if data.type = "ping" then (s, [(clientId, OutMsg.pong now)])
      else (s, [(clientId, OutMsg.errorMsg ("Unknown message type: " ++ data.type))])

/-- The `ws.on('message')` handler: `JSON.parse` failure (`parsed = none`)
sends the `Invalid JSON message` error and leaves all state untouched;
a parsed message is dispatched to `handleClientMessage`. -/
def onMessage (s : ServerState) (clientId : ClientId) (parsed : Option MsgData)
    (ρ : StockSymbol → InitRands) (now : ℕ) : ServerState × List (ClientId × OutMsg) :=
  match parsed with
  | none => (s, [(clientId, OutMsg.errorMsg "Invalid JSON message")])
  | some data => handleClientMessage s clientId data ρ now

/-- The derived-state invariant of the spec: the stored active-symbol
set holds exactly the symbols subscribed by at least one live client. -/
def activeInv (s : ServerState) : Prop :=
  ∀ sym : StockSymbol, sym ∈ s.activeSymbols ↔
    ∃ p ∈ s.clients, sym ∈ p.2.subscribedSymbols

/-- Well-formedness of the price map: each record's `id` is its key
(true of everything `initializeStockPrice` stores). -/
def WFP (ps : List (StockSymbol × PriceRecord)) : Prop :=
  ∀ p ∈ ps, p.2.id = p.1

instance (ps : List (StockSymbol × PriceRecord)) : Decidable (WFP ps) := by
  unfold WFP; infer_instance

/-- A client receives the broadcast record: subscribed, open handle,
send does not throw. -/
def sendGood (d : PriceRecord) (fails : ClientId → Bool) (p : ClientId × Client) : Bool :=
  decide (d.id ∈ p.2.subscribedSymbols) && p.2.readyState && !(fails p.1)

/-- A client's send throws during the broadcast: subscribed, open
handle, send throws. -/
def sendBad (d : PriceRecord) (fails : ClientId → Bool) (p : ClientId × Client) : Bool :=
  decide (d.id ∈ p.2.subscribedSymbols) && p.2.readyState && fails p.1

/-- Some entry of `L` with key `k` has a throwing send. -/
def badKey (d : PriceRecord) (fails : ClientId → Bool)
    (L : List (ClientId × Client)) (k : ClientId) : Bool :=
  L.any (fun p => decide (p.1 = k) && sendBad d fails p)

/-- Fixture: a fixed vector of initialization draws, used by concrete
witness states. -/
def fixInit : InitRands :=
  { rBase := 1/2, rChange := 1/2, rHigh := 1/2, rLow := 1/2, rVol := 1/2 }

/-- Fixture: the initialization-draw oracle returning `fixInit`. -/
def fixInitOracle : StockSymbol → InitRands := fun _ => fixInit

/-- Fixture: a fixed vector of update draws. -/
def fixUpd : UpdRands := { rMove := 1/2, rVol := 1/2 }

/-- Fixture: the update-draw oracle returning `fixUpd`. -/
def fixUpdOracle : StockSymbol → UpdRands := fun _ => fixUpd

/-- Fixture: a concrete price record for AAPL. -/
def cexRecord : PriceRecord :=
  { id := "AAPL", price := 150, previousClose := 150, change := 0,
    changePercent := 0, dayHigh := 151, dayLow := 149, dayVolume := 1000000,
    time := 0, currency := "USD", exchange := "NASDAQ" }

/-- Fixture: an open client subscribed to AAPL. -/
def cexClient : Client :=
  { readyState := true, subscribedSymbols := ["AAPL"], lastPing := 0 }

/-- Fixture: a server state with one live client subscribed to AAPL, the
active set and price map consistent with it. -/
def cexState : ServerState :=
  { clients := [("client_a", cexClient)], activeSymbols := ["AAPL"],
    stockPrices := [("AAPL", cexRecord)] }

/-- Fixture: a send oracle under which every `ws.send` throws. -/
def failAll : StockSymbol → ClientId → Bool := fun _ _ => true

/-- Fixture: the state after one tick on `cexState` during which the
only client's send throws. -/
def cexAfter : ServerState :=
  (updatePrices cexState failAll fixInitOracle fixUpdOracle 1).1

/-- Fixture: a second open client, subscribed to AAPL and MSFT. -/
def wClientB : Client :=
  { readyState := true, subscribedSymbols := ["AAPL", "MSFT"], lastPing := 0 }

/-- Fixture: a two-client state used by concrete witnesses. -/
def wState : ServerState :=
  { clients := [("client_a", cexClient), ("client_b", wClientB)],
    activeSymbols := ["AAPL", "MSFT"], stockPrices := [("AAPL", cexRecord)] }

/-- Fixture: a state whose active set contains AAPL but whose price map
is empty (as after a subscribe raced by this embedding's tick fixture). -/
def wTickState : ServerState :=
  { clients := [("client_a", cexClient)], activeSymbols := ["AAPL"],
    stockPrices := [] }

/-- Fixture: a send oracle under which only the send to client_a throws. -/
def failA : ClientId → Bool := fun cid => decide (cid = "client_a")


/-! ### Basic lemmas about the JS `Set` and `Map` embeddings -/

theorem mem_setAdd {l : List String} {a b : String} :
    b ∈ setAdd l a ↔ b ∈ l ∨ b = a := by
  unfold setAdd
  by_cases h : a ∈ l
  · simp only [if_pos h]
    constructor
    · exact Or.inl
    · rintro (hb | rfl)
      · exact hb
      · exact h
  · simp [if_neg h]

theorem mem_foldl_setAdd {L : List String} :
    ∀ {l : List String} {b : String}, b ∈ L.foldl setAdd l ↔ b ∈ l ∨ b ∈ L := by
  induction L with
  | nil => simp
  | cons a t ih =>
      intro l b
      simp only [List.foldl_cons, ih, mem_setAdd, List.mem_cons]
      tauto

theorem mem_setDelete {l : List String} {a b : String} :
    b ∈ setDelete l a ↔ b ∈ l ∧ b ≠ a := by
  simp [setDelete]

theorem mem_foldl_setDelete {L : List String} :
    ∀ {l : List String} {b : String}, b ∈ L.foldl setDelete l ↔ b ∈ l ∧ b ∉ L := by
  induction L with
  | nil => simp
  | cons a t ih =>
      intro l b
      simp only [List.foldl_cons, ih, mem_setDelete, List.mem_cons]
      tauto

theorem mapGet_mapSet_self {β : Type} {m : List (String × β)} {k : String} {v : β} :
    mapGet (mapSet m k v) k = some v := by
  induction m with
  | nil => simp [mapSet, mapGet]
  | cons p t ih =>
      by_cases h : p.1 = k
      · simp [mapSet, mapGet, h]
      · simp [mapSet, mapGet, h, ih]

theorem mapGet_mapSet_ne {β : Type} {m : List (String × β)} {k k' : String} {v : β}
    (h : k' ≠ k) : mapGet (mapSet m k v) k' = mapGet m k' := by
  have hk : ¬ k = k' := fun hh => h hh.symm
  induction m with
  | nil =>
      simp only [mapSet, mapGet]
      rw [if_neg hk]
  | cons p t ih =>
      by_cases hp : p.1 = k
      · have hp' : ¬ p.1 = k' := by rw [hp]; exact hk
        simp only [mapSet, if_pos hp, mapGet, if_neg hk, if_neg hp']
      · simp only [mapSet, if_neg hp, mapGet]
        by_cases hp' : p.1 = k'
        · simp only [if_pos hp']
        · simp only [if_neg hp', ih]

theorem mapGet_eq_some_mem {β : Type} {m : List (String × β)} {k : String} {v : β}
    (h : mapGet m k = some v) : (k, v) ∈ m := by
  induction m with
  | nil => simp [mapGet] at h
  | cons p t ih =>
      by_cases hp : p.1 = k
      · simp only [mapGet, if_pos hp] at h
        have hpv : p = (k, v) := by
          obtain ⟨p1, p2⟩ := p
          simp only at hp
          simp only [Option.some.injEq] at h
          rw [hp, h]
        rw [← hpv]
        exact List.mem_cons_self p t
      · simp only [mapGet, if_neg hp] at h
        exact List.mem_cons_of_mem _ (ih h)

theorem mem_keys_of_mapGet_eq_some {β : Type} {m : List (String × β)} {k : String}
    {v : β} (h : mapGet m k = some v) : k ∈ m.map Prod.fst := by
  exact List.mem_map.mpr ⟨(k, v), mapGet_eq_some_mem h, rfl⟩

theorem mapGet_eq_none_of_not_mem_keys {β : Type} {m : List (String × β)} {k : String}
    (h : k ∉ m.map Prod.fst) : mapGet m k = none := by
  induction m with
  | nil => rfl
  | cons p t ih =>
      simp only [List.map_cons, List.mem_cons, not_or] at h
      have hp : ¬ p.1 = k := fun hh => h.1 hh.symm
      simp only [mapGet, if_neg hp, ih h.2]

theorem keysNodup_entry_unique {β : Type} {m : List (String × β)} {p q : String × β}
    (hnd : keysNodup m) (hp : p ∈ m) (hq : q ∈ m) (hk : p.1 = q.1) : p = q := by
  induction m with
  | nil => cases hp
  | cons a t ih =>
      have hnd' : (t.map Prod.fst).Nodup := (List.nodup_cons.mp hnd).2
      have ha : a.1 ∉ t.map Prod.fst := (List.nodup_cons.mp hnd).1
      rcases List.mem_cons.mp hp with rfl | hp'
      · rcases List.mem_cons.mp hq with rfl | hq'
        · rfl
        · exact absurd (List.mem_map.mpr ⟨q, hq', hk.symm⟩) ha
      · rcases List.mem_cons.mp hq with rfl | hq'
        · exact absurd (List.mem_map.mpr ⟨p, hp', hk⟩) ha
        · exact ih hnd' hp' hq'

theorem mem_mapSet {β : Type} {m : List (String × β)} {k : String} {v : β}
    {p : String × β} (hnd : keysNodup m) :
    p ∈ mapSet m k v ↔ (p ∈ m ∧ p.1 ≠ k) ∨ p = (k, v) := by
  induction m with
  | nil =>
      constructor
      · intro h
        simp only [mapSet] at h
        right
        simpa using h
      · rintro (⟨h, _⟩ | rfl)
        · cases h
        · simp [mapSet]
  | cons q t ih =>
      have hnd' : keysNodup t := (List.nodup_cons.mp hnd).2
      have hq : q.1 ∉ t.map Prod.fst := (List.nodup_cons.mp hnd).1
      by_cases h : q.1 = k
      · simp only [mapSet, if_pos h, List.mem_cons]
        constructor
        · rintro (rfl | hp)
          · right; rfl
          · left
            refine ⟨Or.inr hp, ?_⟩
            intro hpk
            exact hq (List.mem_map.mpr ⟨p, hp, by rw [hpk, h]⟩)
        · rintro (⟨hq' | hp, hpk⟩ | rfl)
          · exact absurd (hq' ▸ h) hpk
          · right; exact hp
          · left; rfl
      · simp only [mapSet, if_neg h, List.mem_cons, ih hnd']
        constructor
        · rintro (rfl | ⟨hp, hpk⟩ | rfl)
          · exact Or.inl ⟨Or.inl rfl, h⟩
          · exact Or.inl ⟨Or.inr hp, hpk⟩
          · exact Or.inr rfl
        · rintro (⟨rfl | hp, hpk⟩ | rfl)
          · exact Or.inl rfl
          · exact Or.inr (Or.inl ⟨hp, hpk⟩)
          · exact Or.inr (Or.inr rfl)

theorem keys_mapSet_of_mem {β : Type} {m : List (String × β)} {k : String} {v : β}
    (h : k ∈ m.map Prod.fst) : (mapSet m k v).map Prod.fst = m.map Prod.fst := by
  induction m with
  | nil => cases h
  | cons p t ih =>
      by_cases hp : p.1 = k
      · simp [mapSet, hp]
      · simp only [List.map_cons, List.mem_cons, hp] at h
        have h' : k ∈ t.map Prod.fst := by
          rcases h with h | h
          · exact absurd h.symm hp
          · exact h
        simp [mapSet, hp, ih h']

theorem keys_mapSet_of_not_mem {β : Type} {m : List (String × β)} {k : String} {v : β}
    (h : k ∉ m.map Prod.fst) : (mapSet m k v).map Prod.fst = m.map Prod.fst ++ [k] := by
  induction m with
  | nil => simp [mapSet]
  | cons p t ih =>
      simp only [List.map_cons, List.mem_cons, not_or] at h
      have hp : ¬ p.1 = k := fun hh => h.1 hh.symm
      simp [mapSet, hp, ih h.2]

theorem keysNodup_mapSet {β : Type} {m : List (String × β)} {k : String} {v : β}
    (hnd : keysNodup m) : keysNodup (mapSet m k v) := by
  by_cases h : k ∈ m.map Prod.fst
  · unfold keysNodup
    rw [keys_mapSet_of_mem h]
    exact hnd
  · unfold keysNodup
    rw [keys_mapSet_of_not_mem h]
    refine List.nodup_append.mpr ⟨hnd, List.nodup_singleton _, ?_⟩
    intro a ha hb
    simp only [List.mem_singleton] at hb
    rw [hb] at ha
    exact h ha

theorem mem_mapDelete {β : Type} {m : List (String × β)} {k : String}
    {p : String × β} : p ∈ mapDelete m k ↔ p ∈ m ∧ p.1 ≠ k := by
  simp [mapDelete]

theorem mapGet_mapDelete_self {β : Type} {m : List (String × β)} {k : String} :
    mapGet (mapDelete m k) k = none := by
  apply mapGet_eq_none_of_not_mem_keys
  intro h
  rcases List.mem_map.mp h with ⟨p, hp, hk⟩
  exact (mem_mapDelete.mp hp).2 hk

theorem mem_recalculateActiveSymbols {cls : List (ClientId × Client)} {sym : StockSymbol} :
    sym ∈ recalculateActiveSymbols cls ↔ ∃ p ∈ cls, sym ∈ p.2.subscribedSymbols := by
  have go : ∀ (L : List (ClientId × Client)) (acc : List StockSymbol),
      sym ∈ L.foldl (fun acc p => p.2.subscribedSymbols.foldl setAdd acc) acc ↔
        sym ∈ acc ∨ ∃ p ∈ L, sym ∈ p.2.subscribedSymbols := by
    intro L
    induction L with
    | nil => simp
    | cons a t ih =>
        intro acc
        simp only [List.foldl_cons, ih, mem_foldl_setAdd, List.mem_cons]
        constructor
        · rintro ((h | h) | ⟨p, hp, hs⟩)
          · exact Or.inl h
          · exact Or.inr ⟨a, Or.inl rfl, h⟩
          · exact Or.inr ⟨p, Or.inr hp, hs⟩
        · rintro (h | ⟨p, rfl | hp, hs⟩)
          · exact Or.inl (Or.inl h)
          · exact Or.inl (Or.inr hs)
          · exact Or.inr ⟨p, hp, hs⟩
  unfold recalculateActiveSymbols
  rw [go]
  simp

/-! ### Broadcast fan-out lemmas -/

theorem broadcast_foldl_spec (d : PriceRecord) (fails : ClientId → Bool) :
    ∀ (L : List (ClientId × Client)) (st : ServerState) (msgs : List (ClientId × OutMsg)),
      (L.foldl (broadcastStep d fails) (st, msgs)).2 =
          msgs ++ (L.filter (sendGood d fails)).map (fun p => (p.1, OutMsg.ticker d)) ∧
        (L.foldl (broadcastStep d fails) (st, msgs)).1.clients =
          st.clients.filter (fun q => !(badKey d fails L q.1)) ∧
        (L.foldl (broadcastStep d fails) (st, msgs)).1.stockPrices = st.stockPrices ∧
        (L.foldl (broadcastStep d fails) (st, msgs)).1.activeSymbols = st.activeSymbols := by
  intro L
  induction L with
  | nil =>
      intro st msgs
      simp [badKey]
  | cons a t ih =>
      intro st msgs
      by_cases h1 : d.id ∈ a.2.subscribedSymbols
      · by_cases h2 : a.2.readyState = true
        · by_cases h3 : fails a.1 = true
          · -- send throws: the client is deleted, no message
            have hstep : broadcastStep d fails (st, msgs) a =
                ({ st with clients := mapDelete st.clients a.1 }, msgs) := by
              simp [broadcastStep, h1, h2, h3]
            have hbad : sendBad d fails a = true := by
              simp [sendBad, h1, h2, h3]
            have hgood : sendGood d fails a = false := by
              simp [sendGood, h1, h2, h3]
            obtain ⟨ihm, ihc, ihp, iha⟩ :=
              ih { st with clients := mapDelete st.clients a.1 } msgs
            refine ⟨?_, ?_, ?_, ?_⟩
            · rw [List.foldl_cons, hstep, ihm, List.filter_cons, hgood]
              simp
            · rw [List.foldl_cons, hstep, ihc]
              show (mapDelete st.clients a.1).filter _ = _
              unfold mapDelete
              rw [List.filter_filter]
              apply List.filter_congr
              intro q _
              by_cases hq : q.1 = a.1
              · have hb : badKey d fails (a :: t) q.1 = true := by
                  simp only [badKey, List.any_cons, Bool.or_eq_true, Bool.and_eq_true,
                    decide_eq_true_eq]
                  exact Or.inl ⟨hq.symm, hbad⟩
                rw [hq] at hb
                simp [hb, hq]
              · have hb : badKey d fails (a :: t) q.1 = badKey d fails t q.1 := by
                  simp only [badKey, List.any_cons]
                  rw [show decide (a.1 = q.1) = false by
                    simp only [decide_eq_false_iff_not]
                    exact Ne.symm hq]
                  rw [Bool.false_and, Bool.false_or]
                simp [hb, hq]
            · rw [List.foldl_cons, hstep, ihp]
            · rw [List.foldl_cons, hstep, iha]
          · -- successful delivery
            have hstep : broadcastStep d fails (st, msgs) a =
                (st, msgs ++ [(a.1, OutMsg.ticker d)]) := by
              simp [broadcastStep, h1, h2, h3]
            have hbad : sendBad d fails a = false := by
              simp [sendBad, h1, h2, h3]
            have hgood : sendGood d fails a = true := by
              simp [sendGood, h1, h2, h3]
            obtain ⟨ihm, ihc, ihp, iha⟩ := ih st (msgs ++ [(a.1, OutMsg.ticker d)])
            refine ⟨?_, ?_, ?_, ?_⟩
            · rw [List.foldl_cons, hstep, ihm, List.filter_cons, hgood]
              simp
            · rw [List.foldl_cons, hstep, ihc]
              apply List.filter_congr
              intro q _
              have hb : badKey d fails (a :: t) q.1 = badKey d fails t q.1 := by
                simp [badKey, List.any_cons, hbad]
              rw [hb]
            · rw [List.foldl_cons, hstep, ihp]
            · rw [List.foldl_cons, hstep, iha]
        · -- handle not open: skipped
          have hstep : broadcastStep d fails (st, msgs) a = (st, msgs) := by
            simp [broadcastStep, h1, h2]
          have hbad : sendBad d fails a = false := by
            simp [sendBad, h2]
          have hgood : sendGood d fails a = false := by
            simp [sendGood, h2]
          obtain ⟨ihm, ihc, ihp, iha⟩ := ih st msgs
          refine ⟨?_, ?_, ?_, ?_⟩
          · rw [List.foldl_cons, hstep, ihm, List.filter_cons, hgood]
            simp
          · rw [List.foldl_cons, hstep, ihc]
            apply List.filter_congr
            intro q _
            have hb : badKey d fails (a :: t) q.1 = badKey d fails t q.1 := by
              simp [badKey, List.any_cons, hbad]
            rw [hb]
          · rw [List.foldl_cons, hstep, ihp]
          · rw [List.foldl_cons, hstep, iha]
      · -- not subscribed: skipped
        have hstep : broadcastStep d fails (st, msgs) a = (st, msgs) := by
          simp [broadcastStep, h1]
        have hbad : sendBad d fails a = false := by
          simp [sendBad, h1]
        have hgood : sendGood d fails a = false := by
          simp [sendGood, h1]
        obtain ⟨ihm, ihc, ihp, iha⟩ := ih st msgs
        refine ⟨?_, ?_, ?_, ?_⟩
        · rw [List.foldl_cons, hstep, ihm, List.filter_cons, hgood]
          simp
        · rw [List.foldl_cons, hstep, ihc]
          apply List.filter_congr
          intro q _
          have hb : badKey d fails (a :: t) q.1 = badKey d fails t q.1 := by
            simp [badKey, List.any_cons, hbad]
          rw [hb]
        · rw [List.foldl_cons, hstep, ihp]
        · rw [List.foldl_cons, hstep, iha]

theorem broadcastToClients_msgs (s : ServerState) (d : PriceRecord)
    (fails : ClientId → Bool) :
    (broadcastToClients s d fails).2 =
      (s.clients.filter (sendGood d fails)).map (fun p => (p.1, OutMsg.ticker d)) := by
  have h := (broadcast_foldl_spec d fails s.clients s []).1
  simpa [broadcastToClients] using h

theorem broadcastToClients_stockPrices (s : ServerState) (d : PriceRecord)
    (fails : ClientId → Bool) :
    (broadcastToClients s d fails).1.stockPrices = s.stockPrices :=
  (broadcast_foldl_spec d fails s.clients s []).2.2.1

theorem broadcastToClients_activeSymbols (s : ServerState) (d : PriceRecord)
    (fails : ClientId → Bool) :
    (broadcastToClients s d fails).1.activeSymbols = s.activeSymbols :=
  (broadcast_foldl_spec d fails s.clients s []).2.2.2

theorem broadcastToClients_clients (s : ServerState) (d : PriceRecord)
    (fails : ClientId → Bool) (hnd : keysNodup s.clients) :
    (broadcastToClients s d fails).1.clients =
      s.clients.filter (fun p => !(sendBad d fails p)) := by
  have h := (broadcast_foldl_spec d fails s.clients s []).2.1
  rw [broadcastToClients, h]
  apply List.filter_congr
  intro q hq
  congr 1
  unfold badKey
  by_cases hb : sendBad d fails q = true
  · rw [hb, List.any_eq_true]
    exact ⟨q, hq, by simp [hb]⟩
  · have hb' : sendBad d fails q = false := by
      cases hsb : sendBad d fails q
      · rfl
      · exact absurd hsb hb
    rw [hb', List.any_eq_false]
    intro p hp
    intro hcontra
    simp only [Bool.and_eq_true, decide_eq_true_eq] at hcontra
    have hpq : p = q := keysNodup_entry_unique hnd hp hq hcontra.1
    rw [hpq] at hcontra
    exact hb hcontra.2

/-! ### Claim theorems -/

/-- C2: for every symbol with a price record, `dayLow ≤ price ≤ dayHigh`
and `price > 0` hold immediately after `initializeStockPrice` and are
preserved (indeed re-established) by every `updatePrices` advance of the
record. -/
theorem C2_priceRangeInvariant (symbol : StockSymbol) (ρ : InitRands) (now : ℕ)
    (cur : PriceRecord) (u : UpdRands) (now2 : ℕ)
    (hHigh : 0 ≤ ρ.rHigh) (hLow : 0 ≤ ρ.rLow) :
    ((initializeStockPrice symbol ρ now).dayLow ≤ (initializeStockPrice symbol ρ now).price ∧
      (initializeStockPrice symbol ρ now).price ≤ (initializeStockPrice symbol ρ now).dayHigh ∧
      0 < (initializeStockPrice symbol ρ now).price) ∧
    ((advanceRecord symbol cur u now2).dayLow ≤ (advanceRecord symbol cur u now2).price ∧
      (advanceRecord symbol cur u now2).price ≤ (advanceRecord symbol cur u now2).dayHigh ∧
      0 < (advanceRecord symbol cur u now2).price) := by
  constructor
  · simp only [initializeStockPrice]
    set b : ℚ := (basePrices symbol).getD (ρ.rBase * 200 + 50) with hb
    set c : ℚ := (ρ.rChange - 1/2) * b * (5/100) with hc
    set p : ℚ := max (1/100) (b + c) with hp
    have hppos : (0 : ℚ) < p := lt_of_lt_of_le (by norm_num) (le_max_left _ _)
    refine ⟨?_, ?_, hppos⟩
    · have hf : p * (1 - ρ.rLow * (3/100)) ≤ p * 1 :=
        mul_le_mul_of_nonneg_left (by linarith) hppos.le
      simpa using hf
    · have hf : p * 1 ≤ p * (1 + ρ.rHigh * (3/100)) :=
        mul_le_mul_of_nonneg_left (by linarith) hppos.le
      simpa using hf
  · simp only [advanceRecord]
    set np : ℚ := max (1/100) (cur.price * (1 + stepDelta symbol u.rMove)) with hnp
    exact ⟨min_le_right _ _, le_max_right _ _,
      lt_of_lt_of_le (by norm_num) (le_max_left _ _)⟩

/-- C2 witness: the invariant at a concrete symbol, draw vector and
record. -/
theorem C2_priceRangeInvariant_witness :
    (0 ≤ fixInit.rHigh ∧ 0 ≤ fixInit.rLow) ∧
    (((initializeStockPrice "AAPL" fixInit 0).dayLow ≤ (initializeStockPrice "AAPL" fixInit 0).price ∧
      (initializeStockPrice "AAPL" fixInit 0).price ≤ (initializeStockPrice "AAPL" fixInit 0).dayHigh ∧
      0 < (initializeStockPrice "AAPL" fixInit 0).price) ∧
    ((advanceRecord "AAPL" cexRecord fixUpd 1).dayLow ≤ (advanceRecord "AAPL" cexRecord fixUpd 1).price ∧
      (advanceRecord "AAPL" cexRecord fixUpd 1).price ≤ (advanceRecord "AAPL" cexRecord fixUpd 1).dayHigh ∧
      0 < (advanceRecord "AAPL" cexRecord fixUpd 1).price)) :=
  ⟨⟨by norm_num [fixInit], by norm_num [fixInit]⟩,
   C2_priceRangeInvariant "AAPL" fixInit 0 cexRecord fixUpd 1
     (by norm_num [fixInit]) (by norm_num [fixInit])⟩

/-- C3 counterexample: the claim asserts the full range `[-0.02, 0.02]`
is attained for crypto-style symbols, but no draw in `[0, 1)` yields the
delta `0.02` for `BTC-USD` (the actual range is `[-0.01, 0.01)`). -/
theorem C3_counterexample :
    ¬ ∃ r : ℚ, 0 ≤ r ∧ r < 1 ∧ stepDelta "BTC-USD" r = 2/100 := by
  rintro ⟨r, h0, h1, he⟩
  have hv : includesStr "BTC-USD" "USD" = true := by decide
  rw [stepDelta, volatility, if_pos hv] at he
  have : r = 3/2 := by linarith
  rw [this] at h1
  norm_num at h1

/-- C3 amended: the per-step delta is drawn uniformly from the
half-open symmetric interval whose half-width is HALF the volatility
constant — `[-0.01, 0.01)` for symbols containing "USD" and
`[-0.005, 0.005)` otherwise — and exactly the values of that half-open
interval are attained. -/
theorem C3_amendedDelta (symbol : StockSymbol) (r : ℚ) (h0 : 0 ≤ r) (h1 : r < 1) :
    volatility symbol = (if includesStr symbol "USD" then 2/100 else 1/100) ∧
    -(volatility symbol) / 2 ≤ stepDelta symbol r ∧
    stepDelta symbol r < volatility symbol / 2 ∧
    ∀ dlt : ℚ, -(volatility symbol) / 2 ≤ dlt → dlt < volatility symbol / 2 →
      ∃ r2 : ℚ, 0 ≤ r2 ∧ r2 < 1 ∧ stepDelta symbol r2 = dlt := by
  have hvpos : 0 < volatility symbol := by
    unfold volatility
    by_cases h : includesStr symbol "USD" = true
    · rw [if_pos h]; norm_num
    · rw [if_neg h]; norm_num
  refine ⟨rfl, ?_, ?_, ?_⟩
  · unfold stepDelta
    nlinarith [mul_nonneg h0 hvpos.le]
  · unfold stepDelta
    nlinarith [mul_pos (show (0:ℚ) < 1 - r by linarith) hvpos]
  · intro dlt hl hr
    have hvne : volatility symbol ≠ 0 := ne_of_gt hvpos
    refine ⟨dlt / volatility symbol + 1/2, ?_, ?_, ?_⟩
    · have h2 : -(1/2 : ℚ) ≤ dlt / volatility symbol := by
        rw [le_div_iff₀ hvpos]
        nlinarith
      linarith
    · have h2 : dlt / volatility symbol < 1/2 := by
        rw [div_lt_iff₀ hvpos]
        nlinarith
      linarith
    · unfold stepDelta
      field_simp
      ring

/-- C3 amended witness: the bounds at a concrete crypto symbol and
draw. -/
theorem C3_amendedDelta_witness :
    ((0:ℚ) ≤ 0 ∧ (0:ℚ) < 1) ∧
    (volatility "BTC-USD" = (if includesStr "BTC-USD" "USD" then 2/100 else 1/100) ∧
     -(volatility "BTC-USD") / 2 ≤ stepDelta "BTC-USD" 0 ∧
     stepDelta "BTC-USD" 0 < volatility "BTC-USD" / 2 ∧
     ∀ dlt : ℚ, -(volatility "BTC-USD") / 2 ≤ dlt → dlt < volatility "BTC-USD" / 2 →
       ∃ r2 : ℚ, 0 ≤ r2 ∧ r2 < 1 ∧ stepDelta "BTC-USD" r2 = dlt) :=
  ⟨⟨le_refl 0, by norm_num⟩,
   C3_amendedDelta "BTC-USD" 0 (le_refl 0) (by norm_num)⟩

/-- C4: during `broadcastToClients`, the record is delivered to exactly
the subscribed open clients whose send does not throw; a throwing send
removes exactly that client's session (with its subscription set) from
the clients map and nothing else; the price map and active set are
untouched; the fan-out function is total, so no failure propagates. -/
theorem C4_sendFailureIsolation (s : ServerState) (d : PriceRecord)
    (fails : ClientId → Bool) (hnd : keysNodup s.clients) :
    (broadcastToClients s d fails).2 =
      (s.clients.filter (sendGood d fails)).map (fun p => (p.1, OutMsg.ticker d)) ∧
    (broadcastToClients s d fails).1.clients =
      s.clients.filter (fun p => !(sendBad d fails p)) ∧
    (broadcastToClients s d fails).1.stockPrices = s.stockPrices ∧
    (broadcastToClients s d fails).1.activeSymbols = s.activeSymbols :=
  ⟨broadcastToClients_msgs s d fails, broadcastToClients_clients s d fails hnd,
   broadcastToClients_stockPrices s d fails,
   broadcastToClients_activeSymbols s d fails⟩

/-- C4 witness: a concrete two-client fan-out in which the send to
client_a throws and client_b still receives the record. -/
theorem C4_sendFailureIsolation_witness :
    keysNodup wState.clients ∧
    ((broadcastToClients wState cexRecord failA).2 =
      (wState.clients.filter (sendGood cexRecord failA)).map
        (fun p => (p.1, OutMsg.ticker cexRecord)) ∧
    (broadcastToClients wState cexRecord failA).1.clients =
      wState.clients.filter (fun p => !(sendBad cexRecord failA p)) ∧
    (broadcastToClients wState cexRecord failA).1.stockPrices = wState.stockPrices ∧
    (broadcastToClients wState cexRecord failA).1.activeSymbols = wState.activeSymbols) :=
  ⟨by decide, C4_sendFailureIsolation wState cexRecord failA (by decide)⟩

/-- C5 amended: `onConnection` registers a session with an empty
subscription set under the generated identifier and immediately sends a
connection acknowledgement carrying it, touching nothing else; but the
identifier is a pure function of the accept's random draw, so it is
fresh only when the draw's first nine base-36 digits are. -/
theorem C5_amendedAccept (s : ServerState) (r : ℚ) (now : ℕ) :
    (onConnection s r now).2.1 = generateClientId r ∧
    mapGet (onConnection s r now).1.clients (generateClientId r) =
      some { readyState := true, subscribedSymbols := [], lastPing := now } ∧
    (onConnection s r now).2.2 =
      [(generateClientId r, OutMsg.connectionMsg "connected" (generateClientId r) now)] ∧
    (onConnection s r now).1.stockPrices = s.stockPrices ∧
    (onConnection s r now).1.activeSymbols = s.activeSymbols := by
  refine ⟨rfl, ?_, rfl, rfl, rfl⟩
  exact mapGet_mapSet_self

/-- C5 counterexample: two accepts whose random draws coincide allocate
the SAME identifier — the second registration overwrites the first
session, so the identifier is not distinct from every previously
allocated one. -/
theorem C5_counterexample :
    (onConnection (onConnection initialState (1/2) 0).1 (1/2) 1).2.1 =
      (onConnection initialState (1/2) 0).2.1 ∧
    (onConnection (onConnection initialState (1/2) 0).1 (1/2) 1).1.clients.length = 1 := by
  constructor
  · rfl
  · simp [onConnection, initialState, mapSet]

/-- C9: the currency field of every initialized record is the constant
"USD" whatever the symbol, while the exchange field is "CRYPTO" exactly
when the symbol contains the substring "USD" and "NASDAQ" otherwise. -/
theorem C9_currencyAndExchange (symbol : StockSymbol) (ρ : InitRands) (now : ℕ) :
    (initializeStockPrice symbol ρ now).currency = "USD" ∧
    (initializeStockPrice symbol ρ now).exchange =
      (if includesStr symbol "USD" then "CRYPTO" else "NASDAQ") ∧
    ((initializeStockPrice symbol ρ now).exchange = "CRYPTO" ↔
      includesStr symbol "USD" = true) := by
  refine ⟨?_, rfl, ?_⟩
  · show (if includesStr symbol "USD" then "USD" else "USD") = "USD"
    by_cases h : includesStr symbol "USD" = true
    · rw [if_pos h]
    · rw [if_neg h]
  · show (if includesStr symbol "USD" then "CRYPTO" else "NASDAQ") = "CRYPTO" ↔ _
    by_cases h : includesStr symbol "USD" = true
    · rw [if_pos h]
      simp [h]
    · rw [if_neg h]
      constructor
      · intro hc
        exact absurd hc (by decide)
      · intro hc
        exact absurd hc h

/-- C1 counterexample: `cexState` satisfies the active-set invariant,
but after one tick in which the only client's send throws (so
`broadcastToClients` deletes the client WITHOUT recalculating
`activeSymbols`), the invariant is false; moreover the next tick still
advances "AAPL" (its stored record's time moves from 1 to 2) although no
live client subscribes to it. -/
theorem C1_counterexample :
    activeInv cexState ∧
    ¬ activeInv cexAfter ∧
    (mapGet (updatePrices cexAfter failAll fixInitOracle fixUpdOracle 2).1.stockPrices
        "AAPL").map PriceRecord.time = some 2 ∧
    (mapGet cexAfter.stockPrices "AAPL").map PriceRecord.time = some 1 ∧
    cexAfter.clients = [] := by
  refine ⟨?_, ?_, rfl, rfl, by decide⟩
  · intro sym
    simp [cexState, cexClient]
  · intro h
    have hact : "AAPL" ∈ cexAfter.activeSymbols := by
      rw [show cexAfter.activeSymbols = ["AAPL"] from by decide]
      exact List.mem_singleton.mpr rfl
    obtain ⟨p, hp, _⟩ := (h "AAPL").mp hact
    rw [show cexAfter.clients = [] from by decide] at hp
    exact absurd hp (List.not_mem_nil p)

/-- C1 amended: the active-set invariant is preserved by subscribe,
unsubscribe, client disconnect and the dead-connection sweep; it is NOT
preserved by the client removal performed on a send failure during
fan-out, which skips the recalculation (see the counterexample), so
after such a removal a tick may advance a symbol no live client
subscribes to. -/
theorem C1_amendedInvariant (s : ServerState) (cid : ClientId)
    (symbols : Option (List StockSymbol)) (ρ : StockSymbol → InitRands) (now : ℕ)
    (h : activeInv s) (hnd : keysNodup s.clients) :
    activeInv (handleSubscribe s cid symbols ρ now).1 ∧
    activeInv (handleUnsubscribe s cid symbols) ∧
    activeInv (handleClientDisconnect s cid) ∧
    activeInv (cleanupConnections s) := by
  refine ⟨?_, ?_, ?_, ?_⟩
  · -- subscribe
    cases hget : mapGet s.clients cid with
    | none =>
        cases symbols with
        | none => simpa [handleSubscribe, hget] using h
        | some syms => simpa [handleSubscribe, hget] using h
    | some client =>
        cases symbols with
        | none => simpa [handleSubscribe, hget] using h
        | some syms =>
            intro sym
            simp only [handleSubscribe, hget]
            rw [mem_foldl_setAdd]
            constructor
            · rintro (hs | hs)
              · rcases (h sym).mp hs with ⟨p, hp, hsub⟩
                by_cases hpc : p.1 = cid
                · have hpcl : p = (cid, client) :=
                    keysNodup_entry_unique hnd hp (mapGet_eq_some_mem hget) hpc
                  refine ⟨(cid, _), (mem_mapSet hnd).mpr (Or.inr rfl), ?_⟩
                  refine mem_foldl_setAdd.mpr (Or.inl ?_)
                  rw [hpcl] at hsub
                  exact hsub
                · exact ⟨p, (mem_mapSet hnd).mpr (Or.inl ⟨hp, hpc⟩), hsub⟩
              · refine ⟨(cid, _), (mem_mapSet hnd).mpr (Or.inr rfl), ?_⟩
                exact mem_foldl_setAdd.mpr (Or.inr hs)
            · rintro ⟨p, hp, hsub⟩
              rcases (mem_mapSet hnd).mp hp with ⟨hpold, hpne⟩ | rfl
              · exact Or.inl ((h sym).mpr ⟨p, hpold, hsub⟩)
              · rcases mem_foldl_setAdd.mp hsub with hs | hs
                · exact Or.inl ((h sym).mpr ⟨(cid, client), mapGet_eq_some_mem hget, hs⟩)
                · exact Or.inr hs
  · -- unsubscribe
    cases hget : mapGet s.clients cid with
    | none =>
        cases symbols with
        | none => simpa [handleUnsubscribe, hget] using h
        | some syms => simpa [handleUnsubscribe, hget] using h
    | some client =>
        cases symbols with
        | none => simpa [handleUnsubscribe, hget] using h
        | some syms =>
            intro sym
            simp only [handleUnsubscribe, hget]
            exact mem_recalculateActiveSymbols
  · -- disconnect
    intro sym
    exact mem_recalculateActiveSymbols
  · -- sweep
    unfold cleanupConnections
    by_cases hlen : (s.clients.filter (fun p => p.2.readyState)).length = s.clients.length
    · rw [if_pos hlen]
      have heq : s.clients.filter (fun p => p.2.readyState) = s.clients :=
        (List.filter_sublist s.clients).eq_of_length hlen
      rw [heq]
      exact h
    · rw [if_neg hlen]
      intro sym
      exact mem_recalculateActiveSymbols

/-- C1 amended witness: the preservation statement at the concrete
consistent state `cexState`. -/
theorem C1_amendedInvariant_witness :
    (activeInv cexState ∧ keysNodup cexState.clients) ∧
    (activeInv (handleSubscribe cexState "client_a" (some ["MSFT"]) fixInitOracle 3).1 ∧
     activeInv (handleUnsubscribe cexState "client_a" (some ["MSFT"])) ∧
     activeInv (handleClientDisconnect cexState "client_a") ∧
     activeInv (cleanupConnections cexState)) :=
  ⟨⟨fun sym => by simp [cexState, cexClient], by decide⟩,
   C1_amendedInvariant cexState "client_a" (some ["MSFT"]) fixInitOracle 3
     (fun sym => by simp [cexState, cexClient]) (by decide)⟩

/-- C6: a subscribe request naming a single symbol not currently
subscribed delivers exactly one immediate ticker snapshot, addressed to
the subscribing client, and no message to any other client (the
returned list is the complete set of sends). -/
theorem C6_subscribeSnapshot (s : ServerState) (cid : ClientId) (sym : StockSymbol)
    (c : Client) (ρ : StockSymbol → InitRands) (now : ℕ)
    (hget : mapGet s.clients cid = some c) (hWF : WFP s.stockPrices)
    (hns : sym ∉ c.subscribedSymbols) :
    ∃ r1 : PriceRecord,
      (handleSubscribe s cid (some [sym]) ρ now).2 = [(cid, OutMsg.ticker r1)] ∧
      r1.id = sym ∧
      mapGet (handleSubscribe s cid (some [sym]) ρ now).1.stockPrices sym = some r1 := by
  cases hsp : mapGet s.stockPrices sym with
  | none =>
      refine ⟨initializeStockPrice sym (ρ sym) now, ?_, rfl, ?_⟩
      · simp [handleSubscribe, hget, hsp, mapGet_mapSet_self]
      · simp [handleSubscribe, hget, hsp, mapGet_mapSet_self]
  | some r0 =>
      refine ⟨r0, ?_, hWF (sym, r0) (mapGet_eq_some_mem hsp), ?_⟩
      · simp [handleSubscribe, hget, hsp]
      · simp [handleSubscribe, hget, hsp]

/-- C6 witness: the snapshot behaviour at a concrete state where the
record for MSFT does not yet exist. -/
theorem C6_subscribeSnapshot_witness :
    (mapGet wState.clients "client_a" = some cexClient ∧ WFP wState.stockPrices ∧
      "MSFT" ∉ cexClient.subscribedSymbols) ∧
    (∃ r1 : PriceRecord,
      (handleSubscribe wState "client_a" (some ["MSFT"]) fixInitOracle 5).2 =
        [("client_a", OutMsg.ticker r1)] ∧
      r1.id = "MSFT" ∧
      mapGet (handleSubscribe wState "client_a" (some ["MSFT"]) fixInitOracle 5).1.stockPrices
        "MSFT" = some r1) :=
  ⟨⟨by decide, by decide, by decide⟩,
   C6_subscribeSnapshot wState "client_a" "MSFT" cexClient fixInitOracle 5
     (by decide) (by decide) (by decide)⟩

/-- C7: a parse failure is answered with a typed error and changes no
state (the connection stays registered); an unrecognized message type is
answered with a typed error naming that type, with no state change; a
ping is answered with a pong carrying the current time; and after the
parse-failure path a subsequent valid subscribe still succeeds (the
symbol lands in the client's subscription set). -/
theorem C7_protocolErrors (s : ServerState) (cid : ClientId) (now : ℕ)
    (ρ : StockSymbol → InitRands) (t : String) (syms : Option (List StockSymbol))
    (sym : StockSymbol) (c : Client)
    (hget : mapGet s.clients cid = some c)
    (ht1 : t ≠ "subscribe") (ht2 : t ≠ "unsubscribe") (ht3 : t ≠ "ping") :
    onMessage s cid none ρ now = (s, [(cid, OutMsg.errorMsg "Invalid JSON message")]) ∧
    handleClientMessage s cid { type := t, symbols := syms } ρ now =
      (s, [(cid, OutMsg.errorMsg ("Unknown message type: " ++ t))]) ∧
    handleClientMessage s cid { type := "ping", symbols := syms } ρ now =
      (s, [(cid, OutMsg.pong now)]) ∧
    (∃ c2, mapGet (handleSubscribe (onMessage s cid none ρ now).1 cid
        (some [sym]) ρ now).1.clients cid = some c2 ∧ sym ∈ c2.subscribedSymbols) := by
  refine ⟨rfl, ?_, ?_, ?_⟩
  · simp [handleClientMessage, hget, ht1, ht2, ht3]
  · simp [handleClientMessage, hget]
  · show ∃ c2, mapGet (handleSubscribe s cid (some [sym]) ρ now).1.clients cid =
        some c2 ∧ sym ∈ c2.subscribedSymbols
    simp only [handleSubscribe, hget]
    exact ⟨_, mapGet_mapSet_self, mem_foldl_setAdd.mpr (Or.inr (List.mem_singleton.mpr rfl))⟩

/-- C7 witness: the protocol-error behaviour at a concrete state. -/
theorem C7_protocolErrors_witness :
    (mapGet wState.clients "client_a" = some cexClient ∧
      ("bogus" : String) ≠ "subscribe" ∧ ("bogus" : String) ≠ "unsubscribe" ∧
      ("bogus" : String) ≠ "ping") ∧
    (onMessage wState "client_a" none fixInitOracle 7 =
      (wState, [("client_a", OutMsg.errorMsg "Invalid JSON message")]) ∧
    handleClientMessage wState "client_a" { type := "bogus", symbols := none } fixInitOracle 7 =
      (wState, [("client_a", OutMsg.errorMsg ("Unknown message type: " ++ "bogus"))]) ∧
    handleClientMessage wState "client_a" { type := "ping", symbols := none } fixInitOracle 7 =
      (wState, [("client_a", OutMsg.pong 7)]) ∧
    (∃ c2, mapGet (handleSubscribe (onMessage wState "client_a" none fixInitOracle 7).1
        "client_a" (some ["AAPL"]) fixInitOracle 7).1.clients "client_a" = some c2 ∧
      "AAPL" ∈ c2.subscribedSymbols)) :=
  ⟨⟨by decide, by decide, by decide, by decide⟩,
   C7_protocolErrors wState "client_a" 7 fixInitOracle "bogus" none "AAPL" cexClient
     (by decide) (by decide) (by decide) (by decide)⟩

/-- C8: an unsubscribe removes exactly the named symbols from that
client's subscription set and nothing else — other clients' sessions and
the whole price map are untouched — and the recalculated active set
again satisfies the invariant, so a symbol whose last subscriber
unsubscribes (or disconnects) leaves the active set while its price
record is retained. -/
theorem C8_unsubscribeFrame (s : ServerState) (cid : ClientId) (L : List StockSymbol)
    (c : Client) (hget : mapGet s.clients cid = some c) (hnd : keysNodup s.clients) :
    mapGet (handleUnsubscribe s cid (some L)).clients cid =
      some { c with subscribedSymbols := L.foldl setDelete c.subscribedSymbols } ∧
    (∀ sym, sym ∈ L.foldl setDelete c.subscribedSymbols ↔
      sym ∈ c.subscribedSymbols ∧ sym ∉ L) ∧
    (∀ cid2, cid2 ≠ cid → mapGet (handleUnsubscribe s cid (some L)).clients cid2 =
      mapGet s.clients cid2) ∧
    (handleUnsubscribe s cid (some L)).stockPrices = s.stockPrices ∧
    activeInv (handleUnsubscribe s cid (some L)) ∧
    (∀ sym ∈ L, (∀ p ∈ s.clients, p.1 ≠ cid → sym ∉ p.2.subscribedSymbols) →
      sym ∉ (handleUnsubscribe s cid (some L)).activeSymbols) ∧
    mapGet (handleClientDisconnect s cid).clients cid = none ∧
    (handleClientDisconnect s cid).stockPrices = s.stockPrices ∧
    (∀ sym, (∀ p ∈ s.clients, p.1 ≠ cid → sym ∉ p.2.subscribedSymbols) →
      sym ∉ (handleClientDisconnect s cid).activeSymbols) := by
  refine ⟨?_, ?_, ?_, ?_, ?_, ?_, ?_, ?_, ?_⟩
  · simp only [handleUnsubscribe, hget]
    exact mapGet_mapSet_self
  · intro sym
    exact mem_foldl_setDelete
  · intro cid2 hne
    simp only [handleUnsubscribe, hget]
    exact mapGet_mapSet_ne hne
  · simp [handleUnsubscribe, hget]
  · intro sym
    simp only [handleUnsubscribe, hget]
    exact mem_recalculateActiveSymbols
  · intro sym hsymL honly hmem
    simp only [handleUnsubscribe, hget] at hmem
    obtain ⟨p, hp, hsub⟩ := mem_recalculateActiveSymbols.mp hmem
    rcases (mem_mapSet hnd).mp hp with ⟨hpold, hpne⟩ | rfl
    · exact honly p hpold hpne hsub
    · exact (mem_foldl_setDelete.mp hsub).2 hsymL
  · exact mapGet_mapDelete_self
  · rfl
  · intro sym honly hmem
    obtain ⟨p, hp, hsub⟩ := mem_recalculateActiveSymbols.mp hmem
    obtain ⟨hpold, hpne⟩ := mem_mapDelete.mp hp
    exact honly p hpold hpne hsub

/-- C8 witness: the frame conditions at a concrete two-client state,
unsubscribing client_b from MSFT (its last subscriber). -/
theorem C8_unsubscribeFrame_witness :
    (mapGet wState.clients "client_b" = some wClientB ∧ keysNodup wState.clients) ∧
    (mapGet (handleUnsubscribe wState "client_b" (some ["MSFT"])).clients "client_b" =
      some { wClientB with
        subscribedSymbols := ["MSFT"].foldl setDelete wClientB.subscribedSymbols } ∧
    (∀ sym, sym ∈ ["MSFT"].foldl setDelete wClientB.subscribedSymbols ↔
      sym ∈ wClientB.subscribedSymbols ∧ sym ∉ ["MSFT"]) ∧
    (∀ cid2, cid2 ≠ "client_b" →
      mapGet (handleUnsubscribe wState "client_b" (some ["MSFT"])).clients cid2 =
        mapGet wState.clients cid2) ∧
    (handleUnsubscribe wState "client_b" (some ["MSFT"])).stockPrices = wState.stockPrices ∧
    activeInv (handleUnsubscribe wState "client_b" (some ["MSFT"])) ∧
    (∀ sym ∈ ["MSFT"], (∀ p ∈ wState.clients, p.1 ≠ "client_b" →
        sym ∉ p.2.subscribedSymbols) →
      sym ∉ (handleUnsubscribe wState "client_b" (some ["MSFT"])).activeSymbols) ∧
    mapGet (handleClientDisconnect wState "client_b").clients "client_b" = none ∧
    (handleClientDisconnect wState "client_b").stockPrices = wState.stockPrices ∧
    (∀ sym, (∀ p ∈ wState.clients, p.1 ≠ "client_b" → sym ∉ p.2.subscribedSymbols) →
      sym ∉ (handleClientDisconnect wState "client_b").activeSymbols)) :=
  ⟨⟨by decide, by decide⟩,
   C8_unsubscribeFrame wState "client_b" ["MSFT"] wClientB (by decide) (by decide)⟩

/-! ### Tick (updatePrices) lemmas -/

theorem mem_mapSet_sub {β : Type} {m : List (String × β)} {k : String} {v : β}
    {p : String × β} (h : p ∈ mapSet m k v) : p ∈ m ∨ p = (k, v) := by
  induction m with
  | nil =>
      simp only [mapSet] at h
      right
      simpa using h
  | cons q t ih =>
      by_cases hq : q.1 = k
      · simp only [mapSet, if_pos hq, List.mem_cons] at h
        rcases h with rfl | h
        · exact Or.inr rfl
        · exact Or.inl (List.mem_cons_of_mem _ h)
      · simp only [mapSet, if_neg hq, List.mem_cons] at h
        rcases h with rfl | h
        · exact Or.inl (List.mem_cons_self _ _)
        · rcases ih h with h | rfl
          · exact Or.inl (List.mem_cons_of_mem _ h)
          · exact Or.inr rfl

theorem WFP_mapSet {ps : List (StockSymbol × PriceRecord)} {sym : StockSymbol}
    {r : PriceRecord} (h : WFP ps) (hr : r.id = sym) : WFP (mapSet ps sym r) := by
  intro p hp
  rcases mem_mapSet_sub hp with hold | rfl
  · exact h p hold
  · exact hr

theorem priceTickStep_prices_ne (fails : StockSymbol → ClientId → Bool)
    (ρ : StockSymbol → InitRands) (υ : StockSymbol → UpdRands) (now : ℕ)
    (acc : ServerState × List (ClientId × OutMsg)) (a sym : StockSymbol)
    (hne : sym ≠ a) :
    mapGet (priceTickStep fails ρ υ now acc a).1.stockPrices sym =
      mapGet acc.1.stockPrices sym := by
  unfold priceTickStep
  cases h : mapGet acc.1.stockPrices a with
  | none =>
      exact mapGet_mapSet_ne hne
  | some cur =>
      show mapGet (broadcastToClients _ _ _).1.stockPrices sym = _
      rw [broadcastToClients_stockPrices]
      exact mapGet_mapSet_ne hne

theorem priceTickStep_WFP (fails : StockSymbol → ClientId → Bool)
    (ρ : StockSymbol → InitRands) (υ : StockSymbol → UpdRands) (now : ℕ)
    (acc : ServerState × List (ClientId × OutMsg)) (a : StockSymbol)
    (h : WFP acc.1.stockPrices) :
    WFP (priceTickStep fails ρ υ now acc a).1.stockPrices := by
  unfold priceTickStep
  cases hget : mapGet acc.1.stockPrices a with
  | none =>
      exact WFP_mapSet h rfl
  | some cur =>
      show WFP (broadcastToClients _ _ _).1.stockPrices
      rw [broadcastToClients_stockPrices]
      exact WFP_mapSet h (h (a, cur) (mapGet_eq_some_mem hget))

theorem priceTickStep_msgs (fails : StockSymbol → ClientId → Bool)
    (ρ : StockSymbol → InitRands) (υ : StockSymbol → UpdRands) (now : ℕ)
    (acc : ServerState × List (ClientId × OutMsg)) (a sym : StockSymbol)
    (hwf : WFP acc.1.stockPrices) (hne : sym ≠ a) :
    ∀ q ∈ (priceTickStep fails ρ υ now acc a).2,
      q ∈ acc.2 ∨ ∀ dd : PriceRecord, q.2 = OutMsg.ticker dd → dd.id ≠ sym := by
  intro q hq
  unfold priceTickStep at hq
  cases hget : mapGet acc.1.stockPrices a with
  | none =>
      rw [hget] at hq
      exact Or.inl hq
  | some cur =>
      rw [hget] at hq
      simp only at hq
      rcases List.mem_append.mp hq with hcur | hbc
      · exact Or.inl hcur
      · right
        intro dd hdd
        rw [broadcastToClients_msgs] at hbc
        obtain ⟨p, _, hpq⟩ := List.mem_map.mp hbc
        rw [← hpq] at hdd
        simp only [OutMsg.ticker.injEq] at hdd
        rw [← hdd]
        have hcura : cur.id = a := hwf (a, cur) (mapGet_eq_some_mem hget)
        show (advanceRecord a cur (υ a) now).id ≠ sym
        show cur.id ≠ sym
        rw [hcura]
        exact fun hh => hne hh.symm

theorem tick_foldl_prices_notin (fails : StockSymbol → ClientId → Bool)
    (ρ : StockSymbol → InitRands) (υ : StockSymbol → UpdRands) (now : ℕ)
    (sym : StockSymbol) :
    ∀ (L : List StockSymbol) (acc : ServerState × List (ClientId × OutMsg)),
      sym ∉ L →
      mapGet ((L.foldl (priceTickStep fails ρ υ now) acc).1.stockPrices) sym =
        mapGet acc.1.stockPrices sym := by
  intro L
  induction L with
  | nil => intro acc _; rfl
  | cons a t ih =>
      intro acc hnot
      simp only [List.mem_cons, not_or] at hnot
      rw [List.foldl_cons, ih _ hnot.2, priceTickStep_prices_ne _ _ _ _ _ _ _ hnot.1]

theorem tick_foldl_WFP (fails : StockSymbol → ClientId → Bool)
    (ρ : StockSymbol → InitRands) (υ : StockSymbol → UpdRands) (now : ℕ) :
    ∀ (L : List StockSymbol) (acc : ServerState × List (ClientId × OutMsg)),
      WFP acc.1.stockPrices →
      WFP ((L.foldl (priceTickStep fails ρ υ now) acc).1.stockPrices) := by
  intro L
  induction L with
  | nil => intro acc h; exact h
  | cons a t ih =>
      intro acc h
      rw [List.foldl_cons]
      exact ih _ (priceTickStep_WFP _ _ _ _ _ _ h)

theorem tick_foldl_msgs_notin (fails : StockSymbol → ClientId → Bool)
    (ρ : StockSymbol → InitRands) (υ : StockSymbol → UpdRands) (now : ℕ)
    (sym : StockSymbol) :
    ∀ (L : List StockSymbol) (acc : ServerState × List (ClientId × OutMsg)),
      sym ∉ L → WFP acc.1.stockPrices →
      ∀ q ∈ (L.foldl (priceTickStep fails ρ υ now) acc).2,
        q ∈ acc.2 ∨ ∀ dd : PriceRecord, q.2 = OutMsg.ticker dd → dd.id ≠ sym := by
  intro L
  induction L with
  | nil =>
      intro acc _ _ q hq
      exact Or.inl hq
  | cons a t ih =>
      intro acc hnot hwf q hq
      simp only [List.mem_cons, not_or] at hnot
      rw [List.foldl_cons] at hq
      rcases ih _ hnot.2 (priceTickStep_WFP _ _ _ _ _ _ hwf) q hq with hq' | hsafe
      · exact priceTickStep_msgs _ _ _ _ _ _ _ hwf hnot.1 q hq'
      · exact Or.inr hsafe

/-- C10: a tick that meets an active symbol with no price record
creates the fresh record for it (exactly the `initializeStockPrice`
output — no advance) and emits no ticker carrying that symbol during
that same tick, so its first ticker can only come from a later tick or
an immediate subscribe snapshot. -/
theorem C10_tickLazyInit (s : ServerState) (fails : StockSymbol → ClientId → Bool)
    (ρ : StockSymbol → InitRands) (υ : StockSymbol → UpdRands) (now : ℕ)
    (sym : StockSymbol)
    (hmem : sym ∈ s.activeSymbols) (hnd : s.activeSymbols.Nodup)
    (hnone : mapGet s.stockPrices sym = none) (hWF : WFP s.stockPrices) :
    mapGet (updatePrices s fails ρ υ now).1.stockPrices sym =
      some (initializeStockPrice sym (ρ sym) now) ∧
    ∀ q ∈ (updatePrices s fails ρ υ now).2, ∀ dd : PriceRecord,
      q.2 = OutMsg.ticker dd → dd.id ≠ sym := by
  obtain ⟨L1, L2, hsplit⟩ := List.append_of_mem hmem
  have hlen : ¬ s.activeSymbols.length = 0 := by
    rw [hsplit]
    simp
  have hnd2 : (L1 ++ sym :: L2).Nodup := hsplit ▸ hnd
  obtain ⟨hndL1, hndR, hdisj⟩ := List.nodup_append.mp hnd2
  have h1 : sym ∉ L1 := fun hh => hdisj hh (List.mem_cons_self _ _)
  have h2 : sym ∉ L2 := (List.nodup_cons.mp hndR).1
  unfold updatePrices
  rw [if_neg hlen, hsplit, List.foldl_append, List.foldl_cons]
  have hp1 : mapGet (L1.foldl (priceTickStep fails ρ υ now) (s, [])).1.stockPrices sym =
      none := by
    rw [tick_foldl_prices_notin _ _ _ _ _ L1 _ h1]
    exact hnone
  have hw1 : WFP (L1.foldl (priceTickStep fails ρ υ now) (s, [])).1.stockPrices :=
    tick_foldl_WFP _ _ _ _ L1 _ hWF
  have hstep : priceTickStep fails ρ υ now
      (L1.foldl (priceTickStep fails ρ υ now) (s, [])) sym =
      ({ (L1.foldl (priceTickStep fails ρ υ now) (s, [])).1 with
          stockPrices := mapSet
            (L1.foldl (priceTickStep fails ρ υ now) (s, [])).1.stockPrices sym
            (initializeStockPrice sym (ρ sym) now) },
        (L1.foldl (priceTickStep fails ρ υ now) (s, [])).2) := by
    simp [priceTickStep, hp1]
  rw [hstep]
  have hw2 : WFP (mapSet (L1.foldl (priceTickStep fails ρ υ now) (s, [])).1.stockPrices
      sym (initializeStockPrice sym (ρ sym) now)) :=
    WFP_mapSet hw1 rfl
  constructor
  · rw [tick_foldl_prices_notin _ _ _ _ _ L2 _ h2]
    exact mapGet_mapSet_self
  · intro q hq dd hdd
    rcases tick_foldl_msgs_notin _ _ _ _ _ L2 _ h2 hw2 q hq with hq1 | hsafe
    · rcases tick_foldl_msgs_notin _ _ _ _ _ L1 (s, []) h1 hWF q hq1 with h0 | hsafe2
      · exact absurd h0 (List.not_mem_nil q)
      · exact hsafe2 dd hdd
    · exact hsafe dd hdd

/-- C10 witness: a concrete tick on a state whose active set contains
AAPL but whose price map is empty. -/
theorem C10_tickLazyInit_witness :
    ("AAPL" ∈ wTickState.activeSymbols ∧ wTickState.activeSymbols.Nodup ∧
      mapGet wTickState.stockPrices "AAPL" = none ∧ WFP wTickState.stockPrices) ∧
    (mapGet (updatePrices wTickState failAll fixInitOracle fixUpdOracle 9).1.stockPrices
        "AAPL" = some (initializeStockPrice "AAPL" (fixInitOracle "AAPL") 9) ∧
    ∀ q ∈ (updatePrices wTickState failAll fixInitOracle fixUpdOracle 9).2,
      ∀ dd : PriceRecord, q.2 = OutMsg.ticker dd → dd.id ≠ "AAPL") :=
  ⟨⟨by decide, by decide, by decide, by decide⟩,
   C10_tickLazyInit wTickState failAll fixInitOracle fixUpdOracle 9 "AAPL"
     (by decide) (by decide) (by decide) (by decide)⟩
